import Mathlib

/-!
Verification of the agent-runtime specification against the code base.

The repository excerpt contains the HTTP routes (`app/api/routes/chat.py`),
schemas, a migration, and the unit/integration test suites.  The core agent
runtime itself (the ReAct executor with its delta assembler in
`app/core/agent/executor.py`, the websocket chat handler with
`is_vision_model`, `build_tool_result_content` and `_get_conversation_history`
in `app/api/websocket/chat_handler.py`, and the persistence layer that assigns
content-block sequence numbers) is referenced only through its tests and
callers.  Those components are therefore modelled here from the specification,
faithful to its words; the workspace file-reading helper `_read_file_content`
is embedded directly from `app/api/routes/chat.py`.
-/

namespace AgentRuntime

/-! ## Provider stream model (spec section 4.1)

Each item of the LLM provider's raw stream is either a plain text fragment or
a tool-call fragment tagged with an integer index, carrying an optional name
fragment and an arguments-string fragment. -/

/-- Modelled from the spec: an item of the LLM provider's raw stream, the
closed tagged union of section 9 (`app/core/agent/executor.py` is not part of
the excerpt). -/
inductive StreamItem where
  | text (content : String)
  | toolCall (index : Nat) (name : Option String) (args : String)
deriving DecidableEq, Repr

/-- Modelled from the spec: the per-turn, per-call-index accumulator of
section 3 (`ToolCallBuffer`). -/
structure ToolCallBuffer where
  name : Option String
  arguments : String
deriving DecidableEq, Repr

/-- Modelled from the spec: the DeltaAssembler state for one LLM stream —
a mapping from call index to buffer, the announced indices in announcement
order, and the accumulated plain-text fragments. -/
structure AssemblerState where
  buffers : List (Nat × ToolCallBuffer)
  announced : List Nat
  textParts : List String
deriving DecidableEq, Repr

def AssemblerState.init : AssemblerState := ⟨[], [], []⟩

/-- Modelled from the spec: a stream event of the tagged union in section 4.3
and section 6 (the executor is not part of the excerpt). -/
inductive Event where
  | chunk (content : String)
  | actionStreaming (tool : String) (status : String) (step : Nat)
  | action (tool : String) (input : String) (step : Nat)
  | observation (tool : String) (output : String) (success : Bool) (step : Nat)
  | endTurn (content : String)
deriving DecidableEq, Repr

def Event.isChunk : Event → Bool
  | .chunk _ => true
  | _ => false

def Event.isActionStreaming : Event → Bool
  | .actionStreaming _ _ _ => true
  | _ => false

def Event.isAction : Event → Bool
  | .action _ _ _ => true
  | _ => false

def Event.isObservation : Event → Bool
  | .observation _ _ _ _ => true
  | _ => false

def Event.chunkText : Event → Option String
  | .chunk s => some s
  | _ => none

/-- Lookup of the buffer for a call index; a missing index yields the empty
buffer. -/
def bufferFor (bufs : List (Nat × ToolCallBuffer)) (idx : Nat) : ToolCallBuffer :=
  (bufs.lookup idx).getD ⟨none, ""⟩

/-- Store the buffer for a call index, keeping first-arrival order. -/
def setBuffer (bufs : List (Nat × ToolCallBuffer)) (idx : Nat) (b : ToolCallBuffer) :
    List (Nat × ToolCallBuffer) :=
  match bufs with
  | [] => [(idx, b)]
  | (i, b0) :: rest =>
      if i = idx then (i, b) :: rest else (i, b0) :: setBuffer rest idx b

/-- Modelled from the spec: processing of one stream item by the
DeltaAssembler driven by the executor (sections 4.1 and 4.3, steps 3 and 4).
A text fragment is forwarded immediately as a `chunk` event.  A tool-call
fragment announces its index — emitting `action_streaming` exactly once — on
the first fragment whose name is non-empty; argument fragments are
concatenated verbatim and produce no event. -/
def processItem (step : Nat) (st : AssemblerState) : StreamItem → AssemblerState × List Event
  | .text s => ({ st with textParts := st.textParts ++ [s] }, [.chunk s])
  | .toolCall idx nameOpt args =>
      let announcesNow : Bool :=
        (match nameOpt with
          | some n => !(n == "")
          | none => false) && !(st.announced.contains idx)
      let old := bufferFor st.buffers idx
      let b : ToolCallBuffer :=
        ⟨if announcesNow then nameOpt else old.name, old.arguments ++ args⟩
      ({ st with
          buffers := setBuffer st.buffers idx b,
          announced := if announcesNow then st.announced ++ [idx] else st.announced },
       if announcesNow then [.actionStreaming (nameOpt.getD "") "streaming" step] else [])

/-- Modelled from the spec: the DeltaAssembler consuming a whole provider
stream in arrival order. -/
def processItems (step : Nat) (st : AssemblerState) : List StreamItem → AssemblerState × List Event
  | [] => (st, [])
  | it :: rest =>
      let r := processItem step st it
      let r2 := processItems step r.1 rest
      (r2.1, r.2 ++ r2.2)

/-! ## Tools and the executor (spec sections 4.2 and 4.3) -/

/-- Modelled from the spec: the transient value returned by a tool
invocation. -/
structure ToolResult where
  success : Bool
  output : String
deriving DecidableEq, Repr

/-- Modelled from the spec: the tool registry, a mapping from tool name to
the tool capability `validateAndExecute` which never raises. -/
def ToolRegistry := List (String × (String → ToolResult))

/-- Modelled from the spec: registry lookup followed by invocation; an
unknown tool name becomes a failed result, never a crash (section 4.3 step
and section 7 category 2). -/
def execTool (reg : ToolRegistry) (name args : String) : ToolResult :=
  match List.lookup name reg with
  | some f => f args
  | none => ⟨false, "Tool not found: " ++ name⟩

/-- Minimum of a list of indices. -/
def minIndex : List Nat → Option Nat
  | [] => none
  | i :: is =>
      match minIndex is with
      | none => some i
      | some j => some (min i j)

/-- Modelled from the spec: at stream end the executor selects the announced
call with the lowest index (section 4.3 step 5, ReAct policy). -/
def selectCall (st : AssemblerState) : Option (Nat × String × String) :=
  match minIndex st.announced with
  | none => none
  | some i =>
      let b := bufferFor st.buffers i
      some (i, b.name.getD "", b.arguments)

/-- Modelled from the spec: the event sequence of one executor step (section
4.3).  The stream is fed to the DeltaAssembler; if no call was announced the
concatenated text is the final answer, otherwise the lowest-index call is
executed, the `action` event marking the execution boundary and the
`observation` event its completion. -/
def stepEvents (reg : ToolRegistry) (step : Nat) (stream : List StreamItem) : List Event :=
  let r := processItems step AssemblerState.init stream
  match selectCall r.1 with
  | none => r.2 ++ [.endTurn (String.join r.1.textParts)]
  | some (_, name, args) =>
      let res := execTool reg name args
      r.2 ++ [.action name args step, .observation name res.output res.success step]

/-- Modelled from the spec: the bounded ReAct loop (section 4.3), emitting the
events of successive steps until a final answer or budget exhaustion. -/
def runLoop (reg : ToolRegistry) (provider : Nat → List StreamItem) :
    Nat → Nat → List Event
  | _, 0 => [.endTurn "Maximum iterations reached"]
  | step, fuel + 1 =>
      let r := processItems step AssemblerState.init (provider step)
      match selectCall r.1 with
      | none => r.2 ++ [.endTurn (String.join r.1.textParts)]
      | some (_, name, args) =>
          let res := execTool reg name args
          r.2 ++ [.action name args step, .observation name res.output res.success step]
            ++ runLoop reg provider (step + 1) fuel

/-- Modelled from the spec: one conversation turn of the ReActAgent executor,
steps counted from 1 and bounded by `maxIterations`. -/
def ReActAgent.run (reg : ToolRegistry) (provider : Nat → List StreamItem)
    (maxIterations : Nat) : List Event :=
  runLoop reg provider 1 maxIterations

/-! ## Vision content and conversation history (spec section 4.4) -/

/-- Character-list check: does the pattern occur at the head of the list? -/
def leadsWith : List Char → List Char → Bool
  | [], _ => true
  | _ :: _, [] => false
  | p :: ps, c :: cs => p == c && leadsWith ps cs

/-- Character-list check: does the pattern occur contiguously anywhere in the
haystack? -/
def hasSub (pat : List Char) : List Char → Bool
  | [] => pat.isEmpty
  | c :: cs => leadsWith pat (c :: cs) || hasSub pat cs

/-- Substring test on strings, via their character lists. -/
def strContains (hay pat : String) : Bool := hasSub pat.data hay.data

/-- Lower-casing of a string, character by character. -/
def strLower (s : String) : String := ⟨s.data.map Char.toLower⟩

/-- Python's `str.startswith`, via the character lists. -/
def strStartsWith (s pre : String) : Bool := leadsWith pre.data s.data

/-- Modelled from the spec: the table of identifier patterns of known
multimodal model families (section 4.4 and design note on table-driven vision
detection; `is_vision_model` of `app/api/websocket/chat_handler.py` is not
part of the excerpt).  Pinned by `test_is_vision_model_openai`,
`test_is_vision_model_anthropic` and `test_is_vision_model_google`. -/
def visionModelPatterns : List String :=
  ["vision", "gpt-4o", "gpt-4-turbo", "claude-3", "claude-sonnet", "claude-opus",
   "gemini-1.5"]

/-- Modelled from the spec: the pure, case-insensitive, table-driven
vision-capability predicate over model identifiers (section 4.4). -/
def is_vision_model (model : String) : Bool :=
  visionModelPatterns.any (fun p => strContains (strLower model) p)

/-- Modelled from the spec: the optional structured metadata of an executed
action, e.g. an embedded image payload (section 3, AgentAction and
ToolResult). -/
structure ActionMeta where
  mtype : String
  image_data : String
  filename : String
  mime_type : String
deriving DecidableEq, Repr

/-- Modelled from the spec: one executed tool invocation as persisted —
action type, structured input, result output with success flag, optional
metadata (section 3, AgentAction; its ORM class is not part of the
excerpt). -/
structure AgentAction where
  action_type : String
  action_input : String
  output_success : Bool
  output_result : String
  action_metadata : Option ActionMeta
deriving DecidableEq, Repr

def statusTag (a : AgentAction) : String :=
  if a.output_success then "SUCCESS" else "FAILURE"

/-- The plain rendering of a tool result: status tag followed by the
output. -/
def resultText (a : AgentAction) : String :=
  "[" ++ statusTag a ++ "] " ++ a.output_result

/-- Modelled from the spec: the disclaimer appended for non-vision models
(section 4.4; wording pinned by `test_build_tool_result_content_image_for_non_vlm`). -/
def visionDisclaimer : String :=
  "\n\nNote: Image content cannot be analyzed by this model. The image is displayed to the user in the chat interface."

/-- Provider content shape of a rendered tool result: plain text, or a
two-part structure of a text part and an image part. -/
inductive ToolResultContent where
  | textOnly (text : String)
  | textAndImage (text : String) (image_url : String)
deriving DecidableEq, Repr

/-- Modelled from the spec: `build_tool_result_content` of
`app/api/websocket/chat_handler.py` (not part of the excerpt), following
section 4.4: plain text when the metadata describes no image; a two-part
text-plus-image structure for vision-capable models; text with an appended
disclaimer for non-vision models. -/
def build_tool_result_content (a : AgentAction) (model : String) : ToolResultContent :=
  match a.action_metadata with
  | some meta =>
      if meta.mtype = "image" then
        if is_vision_model model then
          .textAndImage (resultText a) meta.image_data
        else
          .textOnly (resultText a ++ visionDisclaimer)
      else .textOnly (resultText a)
  | none => .textOnly (resultText a)

/-- Content of a conversation-history turn: a plain string or the two-part
text-plus-image list. -/
inductive HistoryContent where
  | text (s : String)
  | parts (text : String) (image_url : String)
deriving DecidableEq, Repr

/-- A role-tagged turn of the provider conversation history. -/
structure HistoryTurn where
  role : String
  content : HistoryContent
deriving DecidableEq, Repr

/-- Modelled from the spec: the synthetic assistant tool-call turn, carrying
the action name and input (section 4.4). -/
def toolCallTurn (a : AgentAction) : HistoryTurn :=
  ⟨"assistant", .text ("Tool call: " ++ a.action_type ++ " with input: " ++ a.action_input)⟩

/-- Modelled from the spec: the tool-result turn, its content produced by the
vision content builder (section 4.4; role pinned by
`test_conversation_history_with_image_for_vlm`). -/
def toolResultTurn (a : AgentAction) (model : String) : HistoryTurn :=
  ⟨"user",
    match build_tool_result_content a model with
    | .textOnly t => .text t
    | .textAndImage t u => .parts t u⟩

/-- The two history turns contributed by each completed action, in creation
order. -/
def actionTurns (model : String) (a : AgentAction) : List HistoryTurn :=
  [toolCallTurn a, toolResultTurn a model]

/-- Modelled from the spec: `_get_conversation_history` of
`app/api/websocket/chat_handler.py` (not part of the excerpt) for one
persisted turn — the user message, the assistant message, then for every
completed action an assistant tool-call turn immediately followed by a
tool-result turn, in creation order (section 4.4). -/
def buildConversationHistory (userMsg assistantMsg : String)
    (actions : List AgentAction) (model : String) : List HistoryTurn :=
  ⟨"user", .text userMsg⟩ :: ⟨"assistant", .text assistantMsg⟩ ::
    (actions.map (actionTurns model)).flatten

/-! ## Content-block persistence (spec sections 3 and 6) -/

/-- Modelled from the spec: a persisted content block with its server-assigned
sequence number (section 3; the ORM class and the appending runtime of the
websocket handler are not part of the excerpt, `list_content_blocks` of
`app/api/routes/chat.py` reads them back ordered by `sequence_number`). -/
structure ContentBlock where
  sequence_number : Nat
  kind : String
  payload : String
deriving DecidableEq, Repr

/-- Modelled from the spec: the server-assigned next sequence number — one
more than the last block, strictly increasing (section 6). -/
def nextSequenceNumber (blocks : List ContentBlock) : Nat :=
  match blocks.getLast? with
  | none => 1
  | some b => b.sequence_number + 1

/-- Modelled from the spec: the append-only write of one content block keyed
by session (section 6). -/
def appendBlock (blocks : List ContentBlock) (kind payload : String) : List ContentBlock :=
  blocks ++ [⟨nextSequenceNumber blocks, kind, payload⟩]

/-- A session's store after a sequence of runtime writes, starting empty. -/
def buildSession (writes : List (String × String)) : List ContentBlock :=
  writes.foldl (fun bs w => appendBlock bs w.1 w.2) []

/-- Read-back of a session's blocks ordered by `sequence_number`, as
`list_content_blocks` in `app/api/routes/chat.py` does. -/
def readBackBySequence (blocks : List ContentBlock) : List ContentBlock :=
  List.insertionSort (fun a b => a.sequence_number ≤ b.sequence_number) blocks

/-! ## Workspace file reading (`_read_file_content` in
`app/api/routes/chat.py`) -/

/-- An HTTP error raised by the route helper. -/
structure HTTPError where
  code : Nat
  detail : String
deriving DecidableEq, Repr

/-- The sandbox container visible to `_read_file_content`: its file system as
a path-to-content map.  `test -f` exits 0 exactly when the path is present,
and `read_file` returns the content or nothing. -/
structure SandboxContainer where
  files : List (String × String)

def SandboxContainer.testFileExit (c : SandboxContainer) (path : String) : Nat :=
  if (c.files.lookup path).isSome then 0 else 1

def SandboxContainer.read_file (c : SandboxContainer) (path : String) : Option String :=
  c.files.lookup path

/-- Outcome of `storage.read_file` in the storage-backend fallback branch. -/
inductive StorageReadResult where
  | found (bytes : String)
  | fileNotFound
  | failure (msg : String)

/-- The collaborators `_read_file_content` consults: the container manager
(`get_container` may find no running container), the storage backend, and the
standard-library base64 encoder, which is kept abstract. -/
structure WorkspaceEnv where
  container : Option SandboxContainer
  storageRead : String → String → StorageReadResult
  b64encode : String → String

/-- One contact with a collaborator, recorded in call order. -/
inductive BackendCall where
  | containerLookup (session_id : String)
  | containerExec (command : String)
  | containerRead (path : String)
  | storageRead (session_id : String) (path : String)
deriving DecidableEq, Repr

def trailsWith (suffix hay : String) : Bool :=
  leadsWith suffix.data.reverse hay.data.reverse

/-- Extension-based image sniffing standing in for `mimetypes.guess_type`
followed by the `image/` check. -/
def mimeIsImage (path : String) : Bool :=
  [".png", ".jpg", ".jpeg", ".gif", ".bmp", ".webp", ".svg"].any
    (fun e => trailsWith e (strLower path))

/-- The guessed mime type for the data-URI header of a binary file. -/
def guessMime (path : String) : String :=
  if trailsWith ".png" (strLower path) then "image/png"
  else if trailsWith ".gif" (strLower path) then "image/gif"
  else "image/jpeg"

/-- Embedding of `_read_file_content` from `app/api/routes/chat.py`: the path
must start with `/workspace/` or the helper raises HTTP 400 before any
collaborator is contacted; otherwise the running container is tried first
(`test -f`, then `read_file`), falling back to the storage backend, where a
binary image becomes a base64 data URI and missing files or faults become 404
or 500.  The second component records every collaborator contact in order. -/
def read_file_content (env : WorkspaceEnv) (session_id path : String) :
    Except HTTPError String × List BackendCall :=
  if ¬ strStartsWith path "/workspace/" then
    (.error ⟨400, "Path must be within /workspace/"⟩, [])
  else
    match env.container with
    | some c =>
        let calls := [BackendCall.containerLookup session_id,
                      BackendCall.containerExec ("test -f " ++ path)]
        if c.testFileExit path ≠ 0 then
          (.error ⟨404, "File not found: " ++ path⟩, calls)
        else
          match c.read_file path with
          | none =>
              (.error ⟨500, "Failed to read file content"⟩,
               calls ++ [BackendCall.containerRead path])
          | some content =>
              (.ok content, calls ++ [BackendCall.containerRead path])
    | none =>
        let calls := [BackendCall.containerLookup session_id,
                      BackendCall.storageRead session_id path]
        match env.storageRead session_id path with
        | .found bytes =>
            if mimeIsImage path then
              (.ok ("data:" ++ guessMime path ++ ";base64," ++ env.b64encode bytes), calls)
            else
              (.ok bytes, calls)
        | .fileNotFound =>
            (.error ⟨404, "File not found: " ++ path⟩, calls)
        | .failure msg =>
            (.error ⟨500, "Failed to read file: " ++ msg⟩, calls)

/-! ## Concrete fixtures mirroring the unit-test streams -/

def sampleRegistry : ToolRegistry :=
  [("tool_x", fun a => ⟨true, "tool_x executed with args: " ++ a⟩),
   ("tool_a", fun a => ⟨true, "tool_a executed with args: " ++ a⟩),
   ("tool_b", fun a => ⟨true, "tool_b executed with args: " ++ a⟩)]

/-- The stream of `test_event_order_chunk_then_streaming_then_action`:
reasoning text, then a named tool-call fragment, then an argument fragment. -/
def sampleStreamOrdered : List StreamItem :=
  [.text "Let me check that",
   .toolCall 0 (some "tool_x") "",
   .toolCall 0 none "test: 1"]

def samplePre : List StreamItem := [.text "Let me check that"]

def samplePost : List StreamItem := [.toolCall 0 none "test: 1"]

/-- The stream of `test_no_duplicate_action_streaming_events`: the name
arrives once, further fragments carry only arguments. -/
def sampleStreamDup : List StreamItem :=
  [.toolCall 0 (some "tool_a") "",
   .toolCall 0 none "x: ",
   .toolCall 0 none "1"]

/-- The stream of `test_action_streaming_with_multiple_tool_calls`: two
distinct indices, each announced once. -/
def sampleStreamMulti : List StreamItem :=
  [.toolCall 0 (some "tool_a") "",
   .toolCall 0 none "a1",
   .toolCall 1 (some "tool_b") "",
   .toolCall 1 none "b1"]

/-- The fragment list of the spec's reconstruction example. -/
def sampleTexts : List String :=
  ["Hello", ", ", "this", " ", "is", " ", "a", " ", "test"]

/-- The image metadata of the vision-support tests (payload shortened). -/
def sampleImageMeta : ActionMeta :=
  ⟨"image", "data:image/png;base64,iVBORw0KGgoAAAANSUhEUg", "chart.png", "image/png"⟩

/-- The image-reading action of the vision-support tests. -/
def sampleImageAction : AgentAction :=
  ⟨"file_read", "path: /workspace/out/chart.png", true,
   "Successfully read image file: /workspace/out/chart.png", some sampleImageMeta⟩

/-- The text-file action of `test_conversation_history_mixed_text_and_images`. -/
def sampleTextAction : AgentAction :=
  ⟨"file_read", "path: /workspace/out/script.py", true, "print(hello world)", none⟩

/-- A workspace environment with no running container and an empty storage
backend. -/
def sampleEnv : WorkspaceEnv :=
  ⟨none, fun _ _ => .fileNotFound, fun s => s⟩

/-! ## Assembler lemmas -/

theorem processItems_append (step : Nat) (st : AssemblerState) (xs ys : List StreamItem) :
    processItems step st (xs ++ ys) =
      ((processItems step (processItems step st xs).1 ys).1,
        (processItems step st xs).2 ++ (processItems step (processItems step st xs).1 ys).2) := by
  induction xs generalizing st with
  | nil => simp [processItems]
  | cons it rest ih =>
      simp only [List.cons_append, processItems]
      rw [show rest.append ys = rest ++ ys from rfl, ih]
      simp [List.append_assoc]

theorem processItems_event_kind (step : Nat) (st : AssemblerState) (xs : List StreamItem)
    (e : Event) (he : e ∈ (processItems step st xs).2) :
    e.isChunk = true ∨ e.isActionStreaming = true := by
  induction xs generalizing st with
  | nil => simp [processItems] at he
  | cons it rest ih =>
      simp only [processItems, List.mem_append] at he
      rcases he with he | he
      · cases it with
        | text s =>
            simp only [processItem, List.mem_singleton] at he
            subst he
            exact Or.inl rfl
        | toolCall idx nameOpt args =>
            simp only [processItem] at he
            split at he
            · simp only [List.mem_singleton] at he
              subst he
              exact Or.inr rfl
            · simp at he
      · exact ih _ he

theorem processItem_announce (step : Nat) (st : AssemblerState) (idx : Nat)
    (nm : String) (args : String) (hnm : nm ≠ "")
    (hc : st.announced.contains idx = false) :
    (processItem step st (.toolCall idx (some nm) args)).2 =
      [Event.actionStreaming nm "streaming" step] := by
  have hb : (nm == "") = false := by
    simpa using hnm
  have hm : idx ∉ st.announced := by
    simpa using hc
  simp [processItem, hb, hm]

theorem processItem_already_announced (step : Nat) (st : AssemblerState) (idx : Nat)
    (nameOpt : Option String) (args : String)
    (hc : st.announced.contains idx = true) :
    (processItem step st (.toolCall idx nameOpt args)).2 = [] := by
  have hm : idx ∈ st.announced := by
    simpa using hc
  simp [processItem, hm]

theorem processItems_announced_count (step : Nat) (st : AssemblerState) (xs : List StreamItem) :
    (processItems step st xs).1.announced.length =
      st.announced.length + (processItems step st xs).2.countP (·.isActionStreaming) := by
  induction xs generalizing st with
  | nil => simp [processItems]
  | cons it rest ih =>
      simp only [processItems, List.countP_append]
      cases it with
      | text s =>
          simp only [processItem]
          rw [ih]
          simp [Event.isActionStreaming]
      | toolCall idx nameOpt args =>
          simp only [processItem]
          split
          · rw [ih]
            simp only [List.length_append, List.length_cons, List.length_nil]
            simp [Event.isActionStreaming, List.countP_cons]
            omega
          · rw [ih]
            simp

theorem processItems_announced_nodup (step : Nat) (st : AssemblerState) (xs : List StreamItem)
    (hst : st.announced.Nodup) : (processItems step st xs).1.announced.Nodup := by
  induction xs generalizing st with
  | nil => simpa [processItems]
  | cons it rest ih =>
      simp only [processItems]
      apply ih
      cases it with
      | text s => simpa [processItem]
      | toolCall idx nameOpt args =>
          simp only [processItem]
          by_cases hmem : idx ∈ st.announced
          · simp [hmem, hst]
          · split
            · simp [List.nodup_append, hst, hmem]
            · exact hst

theorem minIndex_mem (l : List Nat) (i : Nat) (h : minIndex l = some i) : i ∈ l := by
  induction l generalizing i with
  | nil => simp [minIndex] at h
  | cons a rest ih =>
      simp only [minIndex] at h
      cases hm : minIndex rest with
      | none =>
          rw [hm] at h
          simp only [Option.some.injEq] at h
          subst h
          exact List.mem_cons_self _ _
      | some j =>
          rw [hm] at h
          simp only [Option.some.injEq] at h
          rcases Nat.le_total a j with hle | hle
          · have : i = a := by omega
            subst this
            exact List.mem_cons_self _ _
          · have : i = j := by omega
            subst this
            exact List.mem_cons_of_mem _ (ih _ hm)

theorem minIndex_le (l : List Nat) (i : Nat) (h : minIndex l = some i) :
    ∀ j ∈ l, i ≤ j := by
  induction l generalizing i with
  | nil => simp
  | cons a rest ih =>
      intro j hj
      simp only [minIndex] at h
      cases hm : minIndex rest with
      | none =>
          rw [hm] at h
          simp only [Option.some.injEq] at h
          subst h
          rcases List.mem_cons.mp hj with rfl | hj'
          · exact Nat.le_refl _
          · exact absurd hm (by
              cases rest with
              | nil => simp at hj'
              | cons b bs =>
                  simp only [minIndex]
                  cases minIndex bs <;> simp)
      | some k =>
          rw [hm] at h
          simp only [Option.some.injEq] at h
          subst h
          rcases List.mem_cons.mp hj with rfl | hj'
          · exact Nat.min_le_left _ _
          · exact Nat.le_trans (Nat.min_le_right _ _) (ih _ hm _ hj')

theorem minIndex_of_ne_nil (l : List Nat) (h : l ≠ []) : ∃ i, minIndex l = some i := by
  cases l with
  | nil => exact absurd rfl h
  | cons a rest =>
      simp only [minIndex]
      cases minIndex rest <;> exact ⟨_, rfl⟩

theorem processItems_all_text (step : Nat) (st : AssemblerState) (texts : List String) :
    processItems step st (texts.map StreamItem.text) =
      ({ st with textParts := st.textParts ++ texts }, texts.map Event.chunk) := by
  induction texts generalizing st with
  | nil => simp [processItems]
  | cons s rest ih =>
      simp [processItems, processItem, ih]

theorem Event.isAction_eq_false (e : Event)
    (h : e.isChunk = true ∨ e.isActionStreaming = true) : e.isAction = false := by
  cases e <;> simp_all [Event.isChunk, Event.isActionStreaming, Event.isAction]

theorem Event.isObservation_eq_false (e : Event)
    (h : e.isChunk = true ∨ e.isActionStreaming = true) : e.isObservation = false := by
  cases e <;> simp_all [Event.isChunk, Event.isActionStreaming, Event.isObservation]

/-- Structural shape of one executor step: the stream-phase events followed by
either a final answer or exactly one action/observation pair. -/
theorem stepEvents_eq (reg : ToolRegistry) (step : Nat) (stream : List StreamItem) :
    (selectCall (processItems step AssemblerState.init stream).1 = none ∧
      stepEvents reg step stream =
        (processItems step AssemblerState.init stream).2 ++
          [Event.endTurn (String.join (processItems step AssemblerState.init stream).1.textParts)])
    ∨ (∃ i nm args,
        selectCall (processItems step AssemblerState.init stream).1 = some (i, nm, args) ∧
        stepEvents reg step stream =
          (processItems step AssemblerState.init stream).2 ++
            [Event.action nm args step,
             Event.observation nm (execTool reg nm args).output (execTool reg nm args).success step]) := by
  cases h : selectCall (processItems step AssemblerState.init stream).1 with
  | none =>
      left
      exact ⟨rfl, by simp [stepEvents, h]⟩
  | some v =>
      obtain ⟨i, nm, args⟩ := v
      right
      exact ⟨i, nm, args, rfl, by simp [stepEvents, h]⟩

theorem pos_lt_len_of_tail_false {α : Type} (l tail : List α) (p : α → Bool)
    (htail : ∀ e ∈ tail, p e = false) (i : Nat) (hi : i < (l ++ tail).length)
    (hp : p ((l ++ tail)[i]) = true) : i < l.length := by
  by_contra hge
  push_neg at hge
  rw [List.getElem_append_right hge] at hp
  have hbound : i - l.length < tail.length := by
    simp only [List.length_append] at hi
    omega
  have hmem : tail[i - l.length] ∈ tail := List.getElem_mem _
  rw [htail _ hmem] at hp
  exact Bool.false_ne_true hp

theorem len_le_pos_of_head_false {α : Type} (l tail : List α) (p : α → Bool)
    (hl : ∀ e ∈ l, p e = false) (j : Nat) (hj : j < (l ++ tail).length)
    (hp : p ((l ++ tail)[j]) = true) : l.length ≤ j := by
  by_contra hlt
  push_neg at hlt
  rw [List.getElem_append_left hlt] at hp
  have hmem : l[j] ∈ l := List.getElem_mem _
  rw [hl _ hmem] at hp
  exact Bool.false_ne_true hp

/-- Within one step, every `action_streaming` event precedes the `action`
event and the `action` event precedes the `observation` event. -/
theorem stepEvents_order (reg : ToolRegistry) (step : Nat) (stream : List StreamItem) :
    (∀ i j (hi : i < (stepEvents reg step stream).length)
        (hj : j < (stepEvents reg step stream).length),
      ((stepEvents reg step stream)[i]).isActionStreaming = true →
      ((stepEvents reg step stream)[j]).isAction = true → i < j)
    ∧ (∀ i j (hi : i < (stepEvents reg step stream).length)
        (hj : j < (stepEvents reg step stream).length),
      ((stepEvents reg step stream)[i]).isAction = true →
      ((stepEvents reg step stream)[j]).isObservation = true → i < j) := by
  have hkind := processItems_event_kind step AssemblerState.init stream
  have hactF : ∀ e ∈ (processItems step AssemblerState.init stream).2, e.isAction = false :=
    fun e he => Event.isAction_eq_false e (hkind e he)
  have hobsF : ∀ e ∈ (processItems step AssemblerState.init stream).2, e.isObservation = false :=
    fun e he => Event.isObservation_eq_false e (hkind e he)
  rcases stepEvents_eq reg step stream with ⟨_, heq⟩ | ⟨i0, nm, args, _, heq⟩ <;> rw [heq]
  · constructor
    · intro i j hi hj _ hact
      exfalso
      have h1 := len_le_pos_of_head_false _ _ _ hactF j hj hact
      have h2 := pos_lt_len_of_tail_false _ _ _
        (by
          intro e he
          simp only [List.mem_singleton] at he
          subst he
          rfl) j hj hact
      omega
    · intro i j hi hj hact _
      exfalso
      have h1 := len_le_pos_of_head_false _ _ _ hactF i hi hact
      have h2 := pos_lt_len_of_tail_false _ _ _
        (by
          intro e he
          simp only [List.mem_singleton] at he
          subst he
          rfl) i hi hact
      omega
  · constructor
    · intro i j hi hj hstr hact
      have h1 : i < (processItems step AssemblerState.init stream).2.length :=
        pos_lt_len_of_tail_false _ _ _
          (by
            intro e he
            simp only [List.mem_cons, List.mem_singleton, List.not_mem_nil, or_false] at he
            rcases he with rfl | rfl <;> rfl) i hi hstr
      have h2 := len_le_pos_of_head_false _ _ _ hactF j hj hact
      omega
    · rw [show (processItems step AssemblerState.init stream).2 ++
          [Event.action nm args step,
           Event.observation nm (execTool reg nm args).output (execTool reg nm args).success step]
          = ((processItems step AssemblerState.init stream).2 ++ [Event.action nm args step])
            ++ [Event.observation nm (execTool reg nm args).output (execTool reg nm args).success step]
          from by simp]
      intro i j hi hj hact hobs
      have h1 : i < ((processItems step AssemblerState.init stream).2 ++
          [Event.action nm args step]).length :=
        pos_lt_len_of_tail_false _ _ _
          (by
            intro e he
            simp only [List.mem_singleton] at he
            subst he
            rfl) i hi hact
      have h2 : ((processItems step AssemblerState.init stream).2 ++
          [Event.action nm args step]).length ≤ j :=
        len_le_pos_of_head_false _ _ _
          (by
            intro e he
            rcases List.mem_append.mp he with hm | hm
            · exact hobsF e hm
            · simp only [List.mem_singleton] at hm
              subst hm
              rfl) j hj hobs
      omega

/-! ## Claims C1, C2, C3 -/

/-- C1: within every executor step the emitted events respect causal order —
every chunk for text preceding a tool call is emitted before that call's
`action_streaming` event (the step's events extend the events of the preceding
fragments, with the announcement immediately next), every `action_streaming`
event precedes the `action` event, and the `action` event precedes the
`observation` event. -/
theorem c1_step_event_causal_order (reg : ToolRegistry) (step : Nat)
    (stream pre post : List StreamItem) (idx : Nat) (nm args : String)
    (hsplit : stream = pre ++ StreamItem.toolCall idx (some nm) args :: post)
    (hnm : nm ≠ "")
    (hnew : idx ∉ (processItems step AssemblerState.init pre).1.announced) :
    (∃ rest, stepEvents reg step stream =
        (processItems step AssemblerState.init pre).2 ++
          Event.actionStreaming nm "streaming" step :: rest)
    ∧ (∀ i j (hi : i < (stepEvents reg step stream).length)
        (hj : j < (stepEvents reg step stream).length),
      ((stepEvents reg step stream)[i]).isActionStreaming = true →
      ((stepEvents reg step stream)[j]).isAction = true → i < j)
    ∧ (∀ i j (hi : i < (stepEvents reg step stream).length)
        (hj : j < (stepEvents reg step stream).length),
      ((stepEvents reg step stream)[i]).isAction = true →
      ((stepEvents reg step stream)[j]).isObservation = true → i < j) := by
  refine ⟨?_, (stepEvents_order reg step stream).1, (stepEvents_order reg step stream).2⟩
  subst hsplit
  have hc : (processItems step AssemblerState.init pre).1.announced.contains idx = false := by
    simpa using hnew
  have hev : (processItems step AssemblerState.init
      (pre ++ StreamItem.toolCall idx (some nm) args :: post)).2 =
      (processItems step AssemblerState.init pre).2 ++
        Event.actionStreaming nm "streaming" step ::
          (processItems step
            (processItem step (processItems step AssemblerState.init pre).1
              (StreamItem.toolCall idx (some nm) args)).1 post).2 := by
    rw [processItems_append]
    simp only [processItems]
    rw [processItem_announce step _ idx nm args hnm hc]
    simp
  have htail : ∃ tail,
      stepEvents reg step (pre ++ StreamItem.toolCall idx (some nm) args :: post) =
        (processItems step AssemblerState.init
          (pre ++ StreamItem.toolCall idx (some nm) args :: post)).2 ++ tail := by
    rcases stepEvents_eq reg step (pre ++ StreamItem.toolCall idx (some nm) args :: post) with
      ⟨_, heq⟩ | ⟨i0, nm0, args0, _, heq⟩
    · exact ⟨_, heq⟩
    · exact ⟨_, heq⟩
  obtain ⟨tail, heq⟩ := htail
  refine ⟨(processItems step
      (processItem step (processItems step AssemblerState.init pre).1
        (StreamItem.toolCall idx (some nm) args)).1 post).2 ++ tail, ?_⟩
  rw [heq, hev]
  simp

/-- C1 witness: the ordering theorem instantiated on the stream of
`test_event_order_chunk_then_streaming_then_action`. -/
theorem c1_step_event_causal_order_witness :
    (sampleStreamOrdered = samplePre ++ StreamItem.toolCall 0 (some "tool_x") "" :: samplePost
      ∧ "tool_x" ≠ ""
      ∧ 0 ∉ (processItems 1 AssemblerState.init samplePre).1.announced)
    ∧ ((∃ rest, stepEvents sampleRegistry 1 sampleStreamOrdered =
        (processItems 1 AssemblerState.init samplePre).2 ++
          Event.actionStreaming "tool_x" "streaming" 1 :: rest)
    ∧ (∀ i j (hi : i < (stepEvents sampleRegistry 1 sampleStreamOrdered).length)
        (hj : j < (stepEvents sampleRegistry 1 sampleStreamOrdered).length),
      ((stepEvents sampleRegistry 1 sampleStreamOrdered)[i]).isActionStreaming = true →
      ((stepEvents sampleRegistry 1 sampleStreamOrdered)[j]).isAction = true → i < j)
    ∧ (∀ i j (hi : i < (stepEvents sampleRegistry 1 sampleStreamOrdered).length)
        (hj : j < (stepEvents sampleRegistry 1 sampleStreamOrdered).length),
      ((stepEvents sampleRegistry 1 sampleStreamOrdered)[i]).isAction = true →
      ((stepEvents sampleRegistry 1 sampleStreamOrdered)[j]).isObservation = true → i < j)) :=
  ⟨⟨by decide, by decide, by decide⟩,
    c1_step_event_causal_order sampleRegistry 1 sampleStreamOrdered samplePre samplePost
      0 "tool_x" "" (by decide) (by decide) (by decide)⟩

/-- C2: within a turn, `action_streaming` is emitted exactly once per distinct
announced tool-call index — the count of `action_streaming` events equals the
number of announced indices, the announced indices are pairwise distinct, and
any further fragment for an already-announced index (argument fragments, or
name fragments empty or absent) emits no event at all. -/
theorem c2_action_streaming_once_per_index (step : Nat) (stream : List StreamItem) :
    (processItems step AssemblerState.init stream).2.countP (·.isActionStreaming) =
      (processItems step AssemblerState.init stream).1.announced.length
    ∧ (processItems step AssemblerState.init stream).1.announced.Nodup
    ∧ ∀ (st : AssemblerState) (idx : Nat) (nameOpt : Option String) (args : String),
        idx ∈ st.announced →
        (processItem step st (.toolCall idx nameOpt args)).2 = [] := by
  refine ⟨?_, ?_, ?_⟩
  · have h := processItems_announced_count step AssemblerState.init stream
    simp only [AssemblerState.init, List.length_nil, Nat.zero_add] at h
    exact h.symm
  · exact processItems_announced_nodup step AssemblerState.init stream
      (by simp [AssemblerState.init])
  · intro st idx nameOpt args hm
    exact processItem_already_announced step st idx nameOpt args (by simpa using hm)

/-- C2 witness: on the stream of `test_no_duplicate_action_streaming_events`
exactly one `action_streaming` is counted, and a further argument fragment for
the announced index emits nothing. -/
theorem c2_action_streaming_once_per_index_witness :
    ((processItems 1 AssemblerState.init sampleStreamDup).2.countP (·.isActionStreaming) =
      (processItems 1 AssemblerState.init sampleStreamDup).1.announced.length
    ∧ (processItems 1 AssemblerState.init sampleStreamDup).1.announced.Nodup)
    ∧ ((0 : Nat) ∈ (AssemblerState.mk [] [0] []).announced
    ∧ (processItem 1 (AssemblerState.mk [] [0] []) (.toolCall 0 none "more")).2 = []) :=
  ⟨⟨(c2_action_streaming_once_per_index 1 sampleStreamDup).1,
    (c2_action_streaming_once_per_index 1 sampleStreamDup).2.1⟩,
   by decide,
   (c2_action_streaming_once_per_index 1 sampleStreamDup).2.2
     (AssemblerState.mk [] [0] []) 0 none "more" (by decide)⟩

/-- C3: when at least one tool call is announced in a step, the step emits one
`action_streaming` event per announced call but exactly one `action` event and
exactly one `observation` event, and the selected call is the announced one
with the lowest index. -/
theorem c3_lowest_index_single_execution (reg : ToolRegistry) (step : Nat)
    (stream : List StreamItem)
    (hann : (processItems step AssemblerState.init stream).1.announced ≠ []) :
    (stepEvents reg step stream).countP (·.isActionStreaming) =
        (processItems step AssemblerState.init stream).1.announced.length
    ∧ (stepEvents reg step stream).countP (·.isAction) = 1
    ∧ (stepEvents reg step stream).countP (·.isObservation) = 1
    ∧ ∃ i nm args,
        selectCall (processItems step AssemblerState.init stream).1 = some (i, nm, args)
        ∧ i ∈ (processItems step AssemblerState.init stream).1.announced
        ∧ ∀ j ∈ (processItems step AssemblerState.init stream).1.announced, i ≤ j := by
  obtain ⟨im, him⟩ := minIndex_of_ne_nil _ hann
  have hsel : selectCall (processItems step AssemblerState.init stream).1 =
      some (im, (bufferFor (processItems step AssemblerState.init stream).1.buffers im).name.getD "",
        (bufferFor (processItems step AssemblerState.init stream).1.buffers im).arguments) := by
    simp [selectCall, him]
  have hkind := processItems_event_kind step AssemblerState.init stream
  have hcntA : (processItems step AssemblerState.init stream).2.countP (·.isAction) = 0 := by
    rw [List.countP_eq_zero]
    intro e he
    simp [Event.isAction_eq_false e (hkind e he)]
  have hcntO : (processItems step AssemblerState.init stream).2.countP (·.isObservation) = 0 := by
    rw [List.countP_eq_zero]
    intro e he
    simp [Event.isObservation_eq_false e (hkind e he)]
  have hcntS : (processItems step AssemblerState.init stream).2.countP (·.isActionStreaming) =
      (processItems step AssemblerState.init stream).1.announced.length := by
    have h := processItems_announced_count step AssemblerState.init stream
    simp only [AssemblerState.init, List.length_nil, Nat.zero_add] at h
    exact h.symm
  rcases stepEvents_eq reg step stream with ⟨hnone, _⟩ | ⟨i0, nm0, args0, _, heq⟩
  · exact absurd (hsel.symm.trans hnone) (by simp)
  · refine ⟨?_, ?_, ?_, im, _, _, hsel, minIndex_mem _ _ him, minIndex_le _ _ him⟩
    · rw [heq, List.countP_append, hcntS]
      simp [Event.isActionStreaming]
    · rw [heq, List.countP_append, hcntA]
      simp [Event.isAction, Event.isObservation, List.countP_cons]
    · rw [heq, List.countP_append, hcntO]
      simp [Event.isAction, Event.isObservation, List.countP_cons]

/-- C3 witness: on the two-call stream of
`test_action_streaming_with_multiple_tool_calls` the step emits two
`action_streaming` events, one `action`, one `observation`, and selects
index 0. -/
theorem c3_lowest_index_single_execution_witness :
    ((processItems 1 AssemblerState.init sampleStreamMulti).1.announced ≠ [])
    ∧ ((stepEvents sampleRegistry 1 sampleStreamMulti).countP (·.isActionStreaming) =
        (processItems 1 AssemblerState.init sampleStreamMulti).1.announced.length
    ∧ (stepEvents sampleRegistry 1 sampleStreamMulti).countP (·.isAction) = 1
    ∧ (stepEvents sampleRegistry 1 sampleStreamMulti).countP (·.isObservation) = 1
    ∧ ∃ i nm args,
        selectCall (processItems 1 AssemblerState.init sampleStreamMulti).1 = some (i, nm, args)
        ∧ i ∈ (processItems 1 AssemblerState.init sampleStreamMulti).1.announced
        ∧ ∀ j ∈ (processItems 1 AssemblerState.init sampleStreamMulti).1.announced, i ≤ j) :=
  ⟨by decide,
   c3_lowest_index_single_execution sampleRegistry 1 sampleStreamMulti (by decide)⟩

/-! ## Claims C5 and C9: pure-text turns -/

/-- A turn whose first provider stream is pure text ends after one step with
the text forwarded chunk by chunk. -/
theorem run_all_text (reg : ToolRegistry) (provider : Nat → List StreamItem)
    (maxIter : Nat) (texts : List String) (hIter : 1 ≤ maxIter)
    (hstream : provider 1 = texts.map StreamItem.text) :
    ReActAgent.run reg provider maxIter =
      texts.map Event.chunk ++ [Event.endTurn (String.join texts)] := by
  obtain ⟨fuel, rfl⟩ : ∃ f, maxIter = f + 1 := ⟨maxIter - 1, by omega⟩
  show runLoop reg provider 1 (fuel + 1) = _
  simp only [runLoop, hstream, processItems_all_text]
  simp [selectCall, minIndex, AssemblerState.init]

/-- C5: for a turn with no tool calls, the concatenation in emission order of
the contents of all chunk events equals the provider's full emitted text. -/
theorem c5_chunk_concat_reconstructs_text (reg : ToolRegistry)
    (provider : Nat → List StreamItem) (maxIter : Nat) (texts : List String)
    (hIter : 1 ≤ maxIter) (hstream : provider 1 = texts.map StreamItem.text) :
    String.join ((ReActAgent.run reg provider maxIter).filterMap Event.chunkText) =
      String.join texts := by
  rw [run_all_text reg provider maxIter texts hIter hstream]
  rw [List.filterMap_append, List.filterMap_map]
  have hcomp : Event.chunkText ∘ Event.chunk = some := rfl
  rw [hcomp, List.filterMap_some]
  simp [Event.chunkText]

/-- C5 witness: the spec's example fragment stream reconstructs to
the full sentence. -/
theorem c5_chunk_concat_reconstructs_text_witness :
    (1 ≤ 1
      ∧ (fun _ : Nat => sampleTexts.map StreamItem.text) 1 = sampleTexts.map StreamItem.text)
    ∧ String.join ((ReActAgent.run [] (fun _ => sampleTexts.map StreamItem.text) 1).filterMap
        Event.chunkText) = "Hello, this is a test" :=
  ⟨⟨by decide, rfl⟩, by
    rw [c5_chunk_concat_reconstructs_text [] (fun _ => sampleTexts.map StreamItem.text) 1
      sampleTexts (by decide) rfl]
    decide⟩

/-- C9: a turn whose provider stream contains only plain text fragments and no
tool-call fragments emits no `action_streaming` event, no `action` event, and
at least one `chunk` event. -/
theorem c9_text_only_turn_no_actions (reg : ToolRegistry)
    (provider : Nat → List StreamItem) (maxIter : Nat) (texts : List String)
    (hIter : 1 ≤ maxIter) (hstream : provider 1 = texts.map StreamItem.text)
    (hne : texts ≠ []) :
    (ReActAgent.run reg provider maxIter).countP (·.isActionStreaming) = 0
    ∧ (ReActAgent.run reg provider maxIter).countP (·.isAction) = 0
    ∧ 0 < (ReActAgent.run reg provider maxIter).countP (·.isChunk) := by
  rw [run_all_text reg provider maxIter texts hIter hstream]
  have hlen : texts.length ≠ 0 := by
    simpa using hne
  refine ⟨?_, ?_, ?_⟩
  · simp [List.countP_append, List.countP_map, Event.isActionStreaming, Function.comp,
      List.countP_cons]
  · simp [List.countP_append, List.countP_map, Event.isAction, Function.comp,
      List.countP_cons]
  · have : (texts.map Event.chunk).countP (·.isChunk) = texts.length := by
      simp [List.countP_map, Event.isChunk, Function.comp]
    simp only [List.countP_append, this]
    omega

/-- C9 witness: the pure-text stream of
`test_text_response_has_no_action_streaming_events`. -/
theorem c9_text_only_turn_no_actions_witness :
    (1 ≤ 1
      ∧ (fun _ : Nat => (["The", " answer", " is", " 42"].map StreamItem.text)) 1 =
          ["The", " answer", " is", " 42"].map StreamItem.text
      ∧ (["The", " answer", " is", " 42"] : List String) ≠ [])
    ∧ ((ReActAgent.run [] (fun _ => ["The", " answer", " is", " 42"].map StreamItem.text)
          1).countP (·.isActionStreaming) = 0
    ∧ (ReActAgent.run [] (fun _ => ["The", " answer", " is", " 42"].map StreamItem.text)
          1).countP (·.isAction) = 0
    ∧ 0 < (ReActAgent.run [] (fun _ => ["The", " answer", " is", " 42"].map StreamItem.text)
          1).countP (·.isChunk)) :=
  ⟨⟨by decide, rfl, by decide⟩,
   c9_text_only_turn_no_actions [] (fun _ => ["The", " answer", " is", " 42"].map StreamItem.text)
     1 ["The", " answer", " is", " 42"] (by decide) rfl (by decide)⟩

/-! ## Claim C4: content-block sequence numbers -/

theorem appendBlock_map_seq (bs : List ContentBlock) (k p : String)
    (hbs : bs.map (·.sequence_number) = List.range' 1 bs.length) :
    (appendBlock bs k p).map (·.sequence_number) = List.range' 1 (bs.length + 1) := by
  have hnext : nextSequenceNumber bs = bs.length + 1 := by
    unfold nextSequenceNumber
    cases hlast : bs.getLast? with
    | none =>
        have hnil : bs = [] := List.getLast?_eq_none_iff.mp hlast
        subst hnil
        rfl
    | some b =>
        have hmap : (bs.map (·.sequence_number)).getLast? = some b.sequence_number := by
          rw [List.getLast?_map, hlast]
          rfl
        rw [hbs] at hmap
        cases hn : bs.length with
        | zero =>
            have hnil : bs = [] := List.length_eq_zero.mp hn
            subst hnil
            simp at hlast
        | succ m =>
            rw [hn, List.range'_1_concat, List.getLast?_concat] at hmap
            have hb : b.sequence_number = 1 + m := by
              simpa using hmap.symm
            show b.sequence_number + 1 = m + 1 + 1
            omega
  unfold appendBlock
  rw [List.map_append, hbs, List.range'_1_concat]
  simp [hnext, Nat.add_comm]

theorem buildSession_foldl_seq (writes : List (String × String)) (bs : List ContentBlock)
    (hbs : bs.map (·.sequence_number) = List.range' 1 bs.length) :
    (writes.foldl (fun s w => appendBlock s w.1 w.2) bs).map (·.sequence_number) =
      List.range' 1 (writes.foldl (fun s w => appendBlock s w.1 w.2) bs).length := by
  induction writes generalizing bs with
  | nil => simpa using hbs
  | cons w ws ih =>
      simp only [List.foldl_cons]
      refine ih (appendBlock bs w.1 w.2) ?_
      rw [appendBlock_map_seq bs w.1 w.2 hbs]
      simp [appendBlock]

/-- C4: a session's content-block sequence numbers form the dense, strictly
increasing range starting at 1 in storage order; each runtime write only
appends, never renumbering existing blocks; and reading back the blocks
ordered by `sequence_number` (as `list_content_blocks` does) reproduces exact
write order. -/
theorem c4_sequence_numbers_dense_append_only (writes : List (String × String)) :
    (buildSession writes).map (·.sequence_number) =
        List.range' 1 (buildSession writes).length
    ∧ (∀ bs k p, (appendBlock bs k p).take bs.length = bs)
    ∧ readBackBySequence (buildSession writes) = buildSession writes := by
  have hseq : (buildSession writes).map (·.sequence_number) =
      List.range' 1 (buildSession writes).length :=
    buildSession_foldl_seq writes [] (by simp)
  refine ⟨hseq, ?_, ?_⟩
  · intro bs k p
    simp [appendBlock]
  · have hsorted : List.Sorted (fun a b : ContentBlock =>
        a.sequence_number ≤ b.sequence_number) (buildSession writes) := by
      have hp : List.Pairwise (· ≤ ·) ((buildSession writes).map (·.sequence_number)) := by
        rw [hseq]
        exact List.pairwise_le_range' 1 _
      exact (List.pairwise_map.mp hp)
    exact hsorted.insertionSort_eq

/-! ## Claims C6 and C7: vision content rendering -/

theorem leadsWith_refl (l : List Char) : leadsWith l l = true := by
  induction l with
  | nil => rfl
  | cons c cs ih => simp [leadsWith, ih]

theorem hasSub_append_self (xs pat : List Char) : hasSub pat (xs ++ pat) = true := by
  induction xs with
  | nil =>
      cases pat with
      | nil => rfl
      | cons c cs => simp [hasSub, leadsWith_refl]
  | cons x xs ih => simp [hasSub, ih]

/-- C6: for an image-producing action and a vision-capable model the rendered
tool result is a two-part structure — a text part equal to `[STATUS] output`
carrying neither the disclaimer nor the image payload (whenever the action's
own rendered output does not contain them), and an image part carrying the
original data-URI unmodified. -/
theorem c6_image_vlm_two_part (a : AgentAction) (meta : ActionMeta) (model : String)
    (hmeta : a.action_metadata = some meta) (himg : meta.mtype = "image")
    (hvlm : is_vision_model model = true) :
    build_tool_result_content a model =
        ToolResultContent.textAndImage (resultText a) meta.image_data
    ∧ (hasSub visionDisclaimer.data (resultText a).data = false →
        ∀ t u, build_tool_result_content a model = ToolResultContent.textAndImage t u →
          hasSub visionDisclaimer.data t.data = false)
    ∧ (∀ payload : String, hasSub payload.data (resultText a).data = false →
        ∀ t u, build_tool_result_content a model = ToolResultContent.textAndImage t u →
          hasSub payload.data t.data = false ∧ u = meta.image_data) := by
  have hb : build_tool_result_content a model =
      ToolResultContent.textAndImage (resultText a) meta.image_data := by
    simp [build_tool_result_content, hmeta, himg, hvlm]
  refine ⟨hb, ?_, ?_⟩
  · intro hcl t u heq
    rw [hb] at heq
    injection heq with h1 h2
    rw [← h1]
    exact hcl
  · intro payload hcl t u heq
    rw [hb] at heq
    injection heq with h1 h2
    rw [← h1, ← h2]
    exact ⟨hcl, rfl⟩

/-- C6 witness: the image action of
`test_build_tool_result_content_image_for_vlm` rendered for `gpt-4o`. -/
theorem c6_image_vlm_two_part_witness :
    (sampleImageAction.action_metadata = some sampleImageMeta
      ∧ sampleImageMeta.mtype = "image"
      ∧ is_vision_model "gpt-4o" = true)
    ∧ build_tool_result_content sampleImageAction "gpt-4o" =
        ToolResultContent.textAndImage (resultText sampleImageAction) sampleImageMeta.image_data
    ∧ (hasSub "iVBORw0KGgoAAAANSUhEUg".data (resultText sampleImageAction).data = false
        ∧ hasSub "iVBORw0KGgoAAAANSUhEUg".data (resultText sampleImageAction).data = false
        ∧ sampleImageMeta.image_data = sampleImageMeta.image_data) :=
  ⟨⟨rfl, rfl, by decide⟩,
   (c6_image_vlm_two_part sampleImageAction sampleImageMeta "gpt-4o" rfl rfl (by decide)).1,
   by decide,
   ((c6_image_vlm_two_part sampleImageAction sampleImageMeta "gpt-4o" rfl rfl
      (by decide)).2.2 "iVBORw0KGgoAAAANSUhEUg" (by decide)
      (resultText sampleImageAction) sampleImageMeta.image_data
      (c6_image_vlm_two_part sampleImageAction sampleImageMeta "gpt-4o" rfl rfl
        (by decide)).1).1,
   ((c6_image_vlm_two_part sampleImageAction sampleImageMeta "gpt-4o" rfl rfl
      (by decide)).2.2 "iVBORw0KGgoAAAANSUhEUg" (by decide)
      (resultText sampleImageAction) sampleImageMeta.image_data
      (c6_image_vlm_two_part sampleImageAction sampleImageMeta "gpt-4o" rfl rfl
        (by decide)).1).2⟩

/-- C7: for an image-producing action and a non-vision model the rendered tool
result is a single text equal to `[STATUS] output` with the appended
disclaimer — which states the image cannot be analyzed by this model and is
displayed to the user — and the image payload never appears in this text
(whenever it does not already occur in the rendered output or disclaimer). -/
theorem c7_image_non_vlm_disclaimer (a : AgentAction) (meta : ActionMeta) (model : String)
    (hmeta : a.action_metadata = some meta) (himg : meta.mtype = "image")
    (hnv : is_vision_model model = false) :
    build_tool_result_content a model =
        ToolResultContent.textOnly (resultText a ++ visionDisclaimer)
    ∧ (∀ t, build_tool_result_content a model = ToolResultContent.textOnly t →
        hasSub visionDisclaimer.data t.data = true)
    ∧ (∀ payload : String,
        hasSub payload.data (resultText a ++ visionDisclaimer).data = false →
        ∀ t, build_tool_result_content a model = ToolResultContent.textOnly t →
          hasSub payload.data t.data = false) := by
  have hb : build_tool_result_content a model =
      ToolResultContent.textOnly (resultText a ++ visionDisclaimer) := by
    simp [build_tool_result_content, hmeta, himg, hnv]
  refine ⟨hb, ?_, ?_⟩
  · intro t heq
    rw [hb] at heq
    injection heq with h1
    rw [← h1]
    rw [String.data_append]
    exact hasSub_append_self _ _
  · intro payload hcl t heq
    rw [hb] at heq
    injection heq with h1
    rw [← h1]
    exact hcl

/-- C7 witness: the image action of
`test_build_tool_result_content_image_for_non_vlm` rendered for
`gpt-3.5-turbo`. -/
theorem c7_image_non_vlm_disclaimer_witness :
    (sampleImageAction.action_metadata = some sampleImageMeta
      ∧ sampleImageMeta.mtype = "image"
      ∧ is_vision_model "gpt-3.5-turbo" = false)
    ∧ build_tool_result_content sampleImageAction "gpt-3.5-turbo" =
        ToolResultContent.textOnly (resultText sampleImageAction ++ visionDisclaimer)
    ∧ hasSub visionDisclaimer.data
        (resultText sampleImageAction ++ visionDisclaimer).data = true
    ∧ hasSub "iVBORw0KGgoAAAANSUhEUg".data
        (resultText sampleImageAction ++ visionDisclaimer).data = false
    ∧ hasSub "iVBORw0KGgoAAAANSUhEUg".data
        (resultText sampleImageAction ++ visionDisclaimer).data = false :=
  ⟨⟨rfl, rfl, by decide⟩,
   (c7_image_non_vlm_disclaimer sampleImageAction sampleImageMeta "gpt-3.5-turbo"
      rfl rfl (by decide)).1,
   (c7_image_non_vlm_disclaimer sampleImageAction sampleImageMeta "gpt-3.5-turbo"
      rfl rfl (by decide)).2.1 _
     (c7_image_non_vlm_disclaimer sampleImageAction sampleImageMeta "gpt-3.5-turbo"
        rfl rfl (by decide)).1,
   by decide,
   (c7_image_non_vlm_disclaimer sampleImageAction sampleImageMeta "gpt-3.5-turbo"
      rfl rfl (by decide)).2.2 "iVBORw0KGgoAAAANSUhEUg" (by decide) _
     (c7_image_non_vlm_disclaimer sampleImageAction sampleImageMeta "gpt-3.5-turbo"
        rfl rfl (by decide)).1⟩

/-! ## Claim C8: conversation history shape -/

theorem actionTurns_flatten_length (model : String) (actions : List AgentAction) :
    ((actions.map (actionTurns model)).flatten).length = 2 * actions.length := by
  induction actions with
  | nil => rfl
  | cons a as ih =>
      simp only [List.map_cons, List.flatten_cons, List.length_append, ih, actionTurns]
      simp only [List.length_cons, List.length_nil]
      omega

theorem actionTurns_flatten_getElem (model : String) (actions : List AgentAction)
    (i : Nat) (a : AgentAction) (ha : actions[i]? = some a) :
    ((actions.map (actionTurns model)).flatten)[2 * i]? = some (toolCallTurn a)
    ∧ ((actions.map (actionTurns model)).flatten)[2 * i + 1]? = some (toolResultTurn a model) := by
  induction actions generalizing i with
  | nil => simp at ha
  | cons b bs ih =>
      cases i with
      | zero =>
          simp only [List.getElem?_cons_zero, Option.some.injEq] at ha
          subst ha
          simp [actionTurns]
      | succ n =>
          simp only [List.getElem?_cons_succ] at ha
          have h := ih n ha
          have e1 : 2 * (n + 1) = 2 * n + 1 + 1 := by omega
          have e2 : 2 * (n + 1) + 1 = (2 * n + 1) + 1 + 1 := by omega
          simp only [List.map_cons, List.flatten_cons, actionTurns, List.cons_append,
            List.nil_append, e1, e2, List.getElem?_cons_succ]
          exact h

/-- C8: for a persisted turn of one user message, one assistant message and
`k` completed actions, the conversation history has exactly `2 + 2 k` entries,
and each action contributes, in creation order, an assistant tool-call turn
immediately followed by the tool-result turn rendered by the vision content
builder. -/
theorem c8_history_two_plus_two_k (userMsg assistantMsg : String)
    (actions : List AgentAction) (model : String) :
    (buildConversationHistory userMsg assistantMsg actions model).length =
        2 + 2 * actions.length
    ∧ ∀ i a, actions[i]? = some a →
        (buildConversationHistory userMsg assistantMsg actions model)[2 + 2 * i]? =
          some (toolCallTurn a)
        ∧ (buildConversationHistory userMsg assistantMsg actions model)[2 + 2 * i + 1]? =
          some (toolResultTurn a model) := by
  constructor
  · simp only [buildConversationHistory, List.length_cons,
      actionTurns_flatten_length]
    omega
  · intro i a ha
    have h := actionTurns_flatten_getElem model actions i a ha
    have e1 : 2 + 2 * i = 2 * i + 1 + 1 := by omega
    have e2 : 2 + 2 * i + 1 = (2 * i + 1) + 1 + 1 := by omega
    simp only [buildConversationHistory, e1, e2, List.getElem?_cons_succ]
    exact h

/-- C8 witness: the mixed text-and-image turn of
`test_conversation_history_mixed_text_and_images` with two actions yields six
entries, the second action at positions 4 and 5. -/
theorem c8_history_two_plus_two_k_witness :
    (buildConversationHistory "Read script.py and chart.png" "I will read both files."
        [sampleTextAction, sampleImageAction] "gpt-4o").length = 2 + 2 * 2
    ∧ ([sampleTextAction, sampleImageAction][(1 : Nat)]? = some sampleImageAction)
    ∧ ((buildConversationHistory "Read script.py and chart.png" "I will read both files."
          [sampleTextAction, sampleImageAction] "gpt-4o")[2 + 2 * 1]? =
        some (toolCallTurn sampleImageAction)
      ∧ (buildConversationHistory "Read script.py and chart.png" "I will read both files."
          [sampleTextAction, sampleImageAction] "gpt-4o")[2 + 2 * 1 + 1]? =
        some (toolResultTurn sampleImageAction "gpt-4o")) :=
  ⟨(c8_history_two_plus_two_k "Read script.py and chart.png" "I will read both files."
      [sampleTextAction, sampleImageAction] "gpt-4o").1,
   by decide,
   (c8_history_two_plus_two_k "Read script.py and chart.png" "I will read both files."
      [sampleTextAction, sampleImageAction] "gpt-4o").2 1 sampleImageAction (by decide)⟩

/-! ## Claim C10: workspace path validation -/

/-- C10: for every environment, session and path not starting with
`/workspace/`, `_read_file_content` fails with HTTP 400 and no sandbox
container or storage backend is ever contacted, so no file outside
`/workspace/` is read or returned. -/
theorem c10_path_validated_before_read (env : WorkspaceEnv) (session_id path : String)
    (h : strStartsWith path "/workspace/" = false) :
    read_file_content env session_id path =
      (Except.error ⟨400, "Path must be within /workspace/"⟩, []) := by
  simp [read_file_content, h]

/-- C10 witness: reading `/etc/passwd` is rejected with HTTP 400 and an empty
collaborator trace. -/
theorem c10_path_validated_before_read_witness :
    (strStartsWith "/etc/passwd" "/workspace/" = false)
    ∧ read_file_content sampleEnv "session-1" "/etc/passwd" =
        (Except.error ⟨400, "Path must be within /workspace/"⟩, []) :=
  ⟨by decide,
   c10_path_validated_before_read sampleEnv "session-1" "/etc/passwd" (by decide)⟩

end AgentRuntime
